import Mathlib

/-
Verification of the Krishi Mitra backend (crop-disease detection service).

This file gives a shallow embedding, in Lean 4, of the Python code in
`backend/model.py`, `backend/disease_info.py` and `backend/app.py` of the
`krishi-mitra-app` tree (the current iteration of the service), and proves
or refutes the specification claims about it.

Conventions of the embedding:
  - Python strings are Lean `String`s; the character-level operations
    (`str.lower`, `str.strip`, `str.replace`, `in`, `endswith`, split)
    are modelled on `List Char`.  `str.lower` is modelled on the ASCII
    range (the only range the repository's label vocabulary uses), and
    `str.strip` strips the ASCII whitespace characters.
  - numpy float arithmetic is modelled by exact rational arithmetic `ℚ`.
  - `np.exp` is an abstract parameter `E : ℚ → ℚ`; the facts proved about
    the softmax path only use positivity of `E`, which holds for `exp`.
  - PIL images are functions from coordinates to channel values; PIL's
    LANCZOS resampling is an abstract parameter (a `Resampler`); the only
    fact used about it is that resampled channel values stay in `0..255`,
    which holds for PIL resampling of 8-bit images.
  - Python exceptions are modelled by `Except Unit`; where numpy raises on
    an empty vector (`np.max`, `np.argmax`) or Python raises on an
    out-of-range index (`self.classes[0]` on an empty list, `int(nan)` on
    the mean of an empty tensor) the embedding returns `Except.error ()`.
  - recursion that is not structural in Python (string `replace` scanning,
    the `while "__" in s` loop) is implemented with an explicit fuel
    argument equal to the input length, which is sufficient because each
    step consumes at least one character / strictly shrinks the string.
-/

/- Rational arithmetic is used in concrete evaluations below; the kernel
unfolds these operations regardless, so let the elaborator do the same. -/
attribute [local semireducible] Rat.add Rat.mul Rat.inv Rat.sub

/-- Decidable equality of `Except` values, for concrete evaluation of
results of fallible operations. -/
instance {ε α : Type} [DecidableEq ε] [DecidableEq α] : DecidableEq (Except ε α)
  | .ok a, .ok b =>
    if h : a = b then .isTrue (h ▸ rfl) else .isFalse (fun hh => h (Except.ok.inj hh))
  | .ok _, .error _ => .isFalse Except.noConfusion
  | .error _, .ok _ => .isFalse Except.noConfusion
  | .error a, .error b =>
    if h : a = b then .isTrue (h ▸ rfl) else .isFalse (fun hh => h (Except.error.inj hh))

/-! ### Python character primitives -/

/-- Model of Python `str.lower` on a single character (ASCII range). -/
def pyToLower (c : Char) : Char :=
  if 65 ≤ c.toNat ∧ c.toNat ≤ 90 then Char.ofNat (c.toNat + 32) else c

/-- Model of Python whitespace (the ASCII whitespace characters stripped
by `str.strip`). -/
def pyIsSpace (c : Char) : Bool :=
  c = ' ' || c = '\t' || c = '\n' || c = '\r' || c = '\x0b' || c = '\x0c'

/-- Model of Python `str.strip`: drop whitespace from both ends. -/
def pyStrip (l : List Char) : List Char :=
  ((l.dropWhile pyIsSpace).reverse.dropWhile pyIsSpace).reverse

/-- Substring test: model of Python `pat in s`. -/
def containsPat (pat : List Char) : List Char → Bool
  | [] => pat.isPrefixOf []
  | c :: rest => pat.isPrefixOf (c :: rest) || containsPat pat rest

/-- One fuelled pass of Python `str.replace pat rep`: replace every
non-overlapping occurrence of `pat`, scanning left to right.  The fuel
bounds the number of scanning steps; `replFuel pat rep l.length l` is the
replacement itself (each step consumes at least one input character, so
fuel `l.length` always suffices). -/
def replFuel (pat rep : List Char) : Nat → List Char → List Char
  | _, [] => []
  | 0, l => l
  | n + 1, c :: rest =>
    if pat ≠ [] ∧ pat.isPrefixOf (c :: rest) then
      rep ++ replFuel pat rep n (List.drop pat.length (c :: rest))
    else
      c :: replFuel pat rep n rest

/-- Model of Python `str.replace` (all non-overlapping occurrences,
left to right) for a non-empty pattern. -/
def pyReplace (pat rep l : List Char) : List Char :=
  replFuel pat rep l.length l

/-- The fuelled `while "__" in s: s = s.replace("__", "_")` loop of
`_normalize_simple`.  Each executed iteration strictly shrinks the string,
so fuel `l.length` reaches the fixed point. -/
def collapseFuel : Nat → List Char → List Char
  | 0, l => l
  | n + 1, l =>
    if containsPat ['_', '_'] l then collapseFuel n (pyReplace ['_', '_'] ['_'] l) else l

/-- Model of the `while "__" in s` loop of `_normalize_simple`. -/
def collapseDunder (l : List Char) : List Char :=
  collapseFuel l.length l

/-- Model of `disease_info._normalize_simple` on character lists:
`if not simple: return ""` then lower, strip, replace `"___"`, `"__"`,
`" - "`, `" "` by `"_"`, then collapse remaining double underscores. -/
def normalizeSimpleL (l : List Char) : List Char :=
  if l = [] then []
  else
    collapseDunder
      (pyReplace [' '] ['_']
        (pyReplace [' ', '-', ' '] ['_']
          (pyReplace ['_', '_'] ['_']
            (pyReplace ['_', '_', '_'] ['_']
              (pyStrip ((l.map pyToLower)))))))

/-- Model of `disease_info._normalize_simple` on strings. -/
def normalize_simple (s : String) : String :=
  ⟨normalizeSimpleL s.data⟩

example : normalize_simple "Tomato___Late_blight" = "tomato_late_blight" := by decide
example : normalize_simple "  Tomato - Late  blight " = "tomato_late_blight" := by decide
example : normalize_simple "" = "" := by decide
example : normalize_simple "a____b" = "a_b" := by decide

/-! ### Disease-info lookup (`disease_info.py`) -/

/-- An advisory entry of the static disease knowledge base.  The
`example_classes` key is absent from some Python entries, which is
modelled by `none`. -/
structure InfoEntry where
  friendly_name : String
  treatment : String
  prevention : String
  example_classes : Option (List String)
deriving DecidableEq

/-- The static table `_DISEASE_DB`, transcribed verbatim (Python's
adjacent string literals are concatenated). -/
def DISEASE_DB : List (String × InfoEntry) :=
  [ ("tomato_late_blight",
     { friendly_name := "Tomato — Late Blight"
       treatment := "Remove and safely destroy heavily infected plants and plant parts. Improve air circulation by pruning dense foliage. Use copper-based organic fungicides or registered fungicides when disease pressure is high; follow product label instructions and local extension guidance."
       prevention := "Plant resistant varieties where available, avoid overhead irrigation, rotate crops (avoid planting solanaceous crops on the same site year-to-year), and ensure adequate spacing for airflow. Monitor regularly and remove volunteer plants."
       example_classes := some ["Tomato___Late_blight", "Tomato___Healthy"] }),
    ("tomato_healthy",
     { friendly_name := "Tomato — Healthy"
       treatment := "No treatment required. Maintain good cultural practices and monitor for pests/diseases."
       prevention := "Maintain balanced fertilization, regular monitoring and sanitation to keep plants healthy."
       example_classes := some ["Tomato___Healthy"] }),
    ("potato_early_blight",
     { friendly_name := "Potato — Early Blight"
       treatment := "Remove affected foliage and tubers for disposal. Apply approved fungicides when necessary and follow local recommendations and label directions."
       prevention := "Practice crop rotation, plant certified seed, avoid excess nitrogen fertilization, and improve drainage and airflow."
       example_classes := some ["Potato___Early_blight", "Potato___Healthy"] }),
    ("potato_healthy",
     { friendly_name := "Potato — Healthy"
       treatment := "No treatment needed. Continue routine crop management and scouting."
       prevention := "Use certified seed, rotate crops, and follow good irrigation and nutrient management."
       example_classes := none }),
    ("corn_common_rust",
     { friendly_name := "Maize/Corn — Common Rust"
       treatment := "Rust is often managed by planting resistant hybrids and timely fungicide applications when thresholds are reached. Consult local extension services for thresholds and products."
       prevention := "Use resistant varieties, rotate crops where possible, and avoid excessive plant density. Monitor fields and manage volunteer host plants."
       example_classes := some ["Corn___Common_rust", "Corn___Healthy"] }),
    ("corn_healthy",
     { friendly_name := "Corn — Healthy"
       treatment := "No treatment required."
       prevention := "Maintain best agronomic practices and monitor for pests and diseases."
       example_classes := none }) ]

/-- The generic fallback entry `_DEFAULT_ENTRY` for unknown slugs. -/
def DEFAULT_ENTRY : InfoEntry :=
  { friendly_name := "Unknown / Not found"
    treatment := "No specific treatment available for this detected class. Collect a clear photo, note symptoms (spots, wilting, discoloration), and consult your local agricultural extension office or a trusted crop specialist."
    prevention := "General good practices: use certified seed/planting material, rotate crops, ensure balanced fertilization, avoid waterlogging, and monitor frequently."
    example_classes := some [] }

/-- Dictionary lookup `_DISEASE_DB.get(key)`. -/
def lookupDB (key : String) : Option InfoEntry :=
  DISEASE_DB.lookup key

/-- Model of `get_info_for_simple`: normalize the slug, return a copy of
the matching entry, or the generic fallback annotated with the original
input (`f"Unknown ({simple})"` when `simple` is truthy). -/
def get_info_for_simple (simple : String) : InfoEntry :=
  let key := normalize_simple simple
  match lookupDB key with
  | some entry => entry
  | none =>
    { DEFAULT_ENTRY with
      friendly_name :=
        if simple ≠ "" then "Unknown (" ++ simple ++ ")" else DEFAULT_ENTRY.friendly_name }

example : (get_info_for_simple "Tomato___Healthy").friendly_name = "Tomato — Healthy" := by decide
example : (get_info_for_simple "martian_mold").friendly_name = "Unknown (martian_mold)" := by decide

/-! ### String helpers used by `model.py` -/

/-- Model of `str.lower` on strings. -/
def pyLowerStr (s : String) : String :=
  ⟨s.data.map pyToLower⟩

/-- Model of `str.replace` on strings (non-empty pattern). -/
def pyReplaceStr (s pat rep : String) : String :=
  ⟨pyReplace pat.data rep.data s.data⟩

/-- Model of `str.strip` on strings. -/
def pyStripStr (s : String) : String :=
  ⟨pyStrip s.data⟩

/-- Substring test on strings (Python `pat in s`). -/
def containsStr (s pat : String) : Bool :=
  containsPat pat.data s.data

/-- The normalized slug of a detailed label:
`full.replace("___", "_").replace(" ", "_").lower()` (used for every
value of `plantvillage_to_simple`). -/
def slugOf (full : String) : String :=
  pyLowerStr (pyReplaceStr (pyReplaceStr full "___" "_") " " "_")

/-- The default used by `plantvillage_to_simple.get(detailed, ...)`:
`detailed.replace(" ", "_").lower()`. -/
def fallbackSlug (detailed : String) : String :=
  pyLowerStr (pyReplaceStr detailed " " "_")

/-- Model of `self.plantvillage_to_simple.get(detailed, default)`: the
dictionary maps every `full` in `classes` to `slugOf full`, and misses
fall back to `fallbackSlug detailed`. -/
def pvToSimple (classes : List String) (detailed : String) : String :=
  if detailed ∈ classes then slugOf detailed else fallbackSlug detailed

/-- Characters of `l` before the first occurrence of `pat`
(the whole list if `pat` does not occur): `s.split(pat)[0]`. -/
def takeUntil (pat : List Char) : List Char → List Char
  | [] => []
  | c :: rest => if pat.isPrefixOf (c :: rest) then [] else c :: takeUntil pat rest

/-- Model of the plant extraction
`detailed.split("___", 1)[0] if "___" in detailed else detailed.split("_")[0]`. -/
def plantOf (detailed : String) : String :=
  if containsStr detailed "___" then ⟨takeUntil "___".data detailed.data⟩
  else ⟨takeUntil "_".data detailed.data⟩

/-- Model of `os.path.basename` (the component after the last slash). -/
def pyBasename (s : String) : String :=
  ⟨s.data.foldl (fun acc c => if c = '/' then [] else acc ++ [c]) []⟩

example : slugOf "Tomato___Early_blight" = "tomato_early_blight" := by decide
example : plantOf "Tomato___Early_blight" = "Tomato" := by decide
example : plantOf "Corn_rust" = "Corn" := by decide
example : pyBasename "models/crop_disease_model.h5" = "crop_disease_model.h5" := by decide

/-! ### Images, resampling and `preprocess` -/

/-- An RGB pixel: three 8-bit channel values (0..255). -/
abbrev Pix3 := Nat × Nat × Nat

/-- All three channels of a pixel are in the 8-bit range. -/
def pixLe255 (p : Pix3) : Prop :=
  p.1 ≤ 255 ∧ p.2.1 ≤ 255 ∧ p.2.2 ≤ 255

/-- A decoded PIL image: grayscale `L`, `RGB`, or `RGBA`, with its pixel
grid as a function of `(x, y)` coordinates. -/
inductive PILImage where
  | l (w h : Nat) (px : Nat → Nat → Nat)
  | rgb (w h : Nat) (px : Nat → Nat → Pix3)
  | rgba (w h : Nat) (px : Nat → Nat → Pix3 × Nat)

/-- Width in pixels (`image.size[0]`). -/
def PILImage.width : PILImage → Nat
  | .l w _ _ => w
  | .rgb w _ _ => w
  | .rgba w _ _ => w

/-- Height in pixels (`image.size[1]`). -/
def PILImage.height : PILImage → Nat
  | .l _ h _ => h
  | .rgb _ h _ => h
  | .rgba _ h _ => h

/-- Channel values of the image are 8-bit values. -/
def PILImage.bounded : PILImage → Prop
  | .l _ _ px => ∀ x y, px x y ≤ 255
  | .rgb _ _ px => ∀ x y, pixLe255 (px x y)
  | .rgba _ _ px => ∀ x y, pixLe255 (px x y).1 ∧ (px x y).2 ≤ 255

/-- Model of `image.convert('RGB')`: replicate a single `L` channel,
drop the `RGBA` alpha channel, keep `RGB` unchanged.  Returns
`(width, height, pixels)`. -/
def convertRGB : PILImage → Nat × Nat × (Nat → Nat → Pix3)
  | .l w h px => (w, h, fun x y => (px x y, px x y, px x y))
  | .rgb w h px => (w, h, px)
  | .rgba w h px => (w, h, fun x y => (px x y).1)

/-- Abstract model of `image.resize((tw, th), Image.LANCZOS)`: a function
from the source geometry and pixels to the target pixel grid.  PIL's
LANCZOS filter is not reimplemented; the only property used is
`ResamplerWF`. -/
abbrev Resampler :=
  Nat → Nat → (Nat → Nat → Pix3) → Nat → Nat → (Nat → Nat → Pix3)

/-- A resampler maps 8-bit input pixels to 8-bit output pixels (true of
PIL resampling of 8-bit images, whose output is clamped to `0..255`). -/
def ResamplerWF (R : Resampler) : Prop :=
  ∀ sw sh px tw th, (∀ x y, pixLe255 (px x y)) → ∀ x y, pixLe255 (R sw sh px tw th x y)

/-- A 4-D numpy tensor of rationals, as produced by `preprocess`:
an explicit shape together with the entry function. -/
structure Tensor where
  shape : Nat × Nat × Nat × Nat
  entry : Nat → Nat → Nat → Nat → ℚ

/-- Channel selector for a pixel (numpy last-axis indexing). -/
def chan (p : Pix3) : Nat → Nat
  | 0 => p.1
  | 1 => p.2.1
  | 2 => p.2.2
  | _ + 3 => 0

/-- Model of `CropDiseaseModel.preprocess`: convert to RGB, resize to
`input_size = (tw, th)`, scale to `0..1` floats, add the batch axis.
`np.asarray` of a `tw × th` RGB image has shape `(th, tw, 3)`, so after
`np.expand_dims(..., 0)` the result has shape `(1, th, tw, 3)`.  The two
shape fix-ups of the source (`arr.ndim == 2` and `arr.shape[2] == 4`) are
no-ops here because `convert('RGB')` already guarantees three channels. -/
def preprocess (R : Resampler) (input_size : Nat × Nat) (image : PILImage) : Tensor :=
  let tw := input_size.1
  let th := input_size.2
  let c := convertRGB image
  let px := R c.1 c.2.1 c.2.2 tw th
  { shape := (1, th, tw, 3)
    entry := fun _ y x ch => (chan (px x y) ch : ℚ) / 255 }

/-- Number of entries of a tensor (`x.size`, the product of the shape). -/
def tensorCount (t : Tensor) : Nat :=
  t.shape.1 * t.shape.2.1 * t.shape.2.2.1 * t.shape.2.2.2

/-- Sum of all entries of a tensor. -/
def tensorSum (t : Tensor) : ℚ :=
  ((List.range t.shape.1).map (fun b =>
    ((List.range t.shape.2.1).map (fun y =>
      ((List.range t.shape.2.2.1).map (fun x =>
        ((List.range t.shape.2.2.2).map (fun ch => t.entry b y x ch)).sum)).sum)).sum)).sum

/-- Model of `np.mean(x)`: the sum of the entries over their number. -/
def tensorMean (t : Tensor) : ℚ :=
  tensorSum t / (tensorCount t : ℚ)

/-! ### The model adapter (`CropDiseaseModel`) -/

/-- A prediction result: the dictionary returned by `predict`. -/
structure PredResult where
  plant : String
  disease : String
  confidence : ℚ
  detailed_class : String
  model_used : String
deriving DecidableEq

/-- The embedded `CropDiseaseModel` state after `__init__`: the label
vocabulary, the target input size `(width, height)`, the optional loaded
classifier (a function from the preprocessed tensor to an output vector,
which may raise), and the optional model path. -/
structure CropDiseaseModel where
  classes : List String
  input_size : Nat × Nat
  model : Option (Tensor → Except Unit (List ℚ))
  model_path : Option String

/-- The hardcoded fallback vocabulary substituted when `class_names.txt`
is missing or empty. -/
def defaultClasses : List String :=
  ["Tomato___Late_blight", "Tomato___Healthy", "Potato___Early_blight",
   "Potato___Healthy", "Corn___Common_rust", "Corn___Healthy"]

/-- Model of the vocabulary loading of `__init__`: `safe_readlines`
strips each line and drops empty ones, and an empty result is replaced by
the hardcoded default set. -/
def buildClasses (rawLines : List String) : List String :=
  let read := (rawLines.map pyStripStr).filter (fun s => s ≠ "")
  if read = [] then defaultClasses else read

/-- The adapter produced by `__init__` from the raw vocabulary lines, the
input size, and the (possibly absent) loaded model. -/
def mkAdapter (rawLines : List String) (input_size : Nat × Nat)
    (model : Option (Tensor → Except Unit (List ℚ))) (model_path : Option String) :
    CropDiseaseModel :=
  { classes := buildClasses rawLines, input_size := input_size
    model := model, model_path := model_path }

/-- Sum of a list of rationals (`preds.sum()`). -/
def listSum (l : List ℚ) : ℚ := l.sum

/-- Maximum of a list of rationals (`np.max`; the `[]` case never reaches
this value because callers guard against empty vectors). -/
def listMax : List ℚ → ℚ
  | [] => 0
  | c :: rest => rest.foldl max c

/-- First index of the maximum (`np.argmax`). -/
def argmaxIdx (l : List ℚ) : Nat :=
  l.findIdx (fun v => decide (v = listMax l))

/-- Model of `np.allclose(preds.sum(), 1.0, atol=1e-3)`: numpy compares
`|a - b| ≤ atol + rtol * |b|` with the default `rtol = 1e-5`, so the
effective tolerance at `b = 1.0` is `1e-3 + 1e-5`. -/
def sumCloseCode (l : List ℚ) : Bool :=
  decide (|listSum l - 1| ≤ 1 / 1000 + 1 / 100000)

/-- Model of `CropDiseaseModel.softmax` with the exponential abstracted:
`e = E(x - max x); e / e.sum()`. -/
def softmax (E : ℚ → ℚ) (l : List ℚ) : List ℚ :=
  let m := listMax l
  let e := l.map (fun x => E (x - m))
  e.map (fun v => v / listSum e)

/-- The probability vector of the model path: softmax is applied exactly
when the flattened output does not pass the `np.allclose` test. -/
def modelProbs (E : ℚ → ℚ) (preds : List ℚ) : List ℚ :=
  if sumCloseCode preds then preds else softmax E preds

/-- The trained-model branch of `predict` on the flattened output vector
`preds` (`np.asarray(preds).reshape(-1)` is the identity here because the
embedded model already yields a flat vector).  `np.max`/`np.argmax` raise
on an empty vector, which the embedding reports as an error. -/
def modelPath (E : ℚ → ℚ) (a : CropDiseaseModel) (preds : List ℚ) :
    Except Unit PredResult :=
  if preds = [] then .error ()
  else
    let probs := modelProbs E preds
    let idx := argmaxIdx probs
    let confidence := probs.getD idx 0
    let detailed := a.classes.getD idx "Unknown"
    .ok
      { plant := plantOf detailed
        disease := pvToSimple a.classes detailed
        confidence := confidence
        detailed_class := detailed
        model_used := match a.model_path with
          | some p => pyBasename p
          | none => "trained-model" }

/-- Python `int()` truncation toward zero on a rational. -/
def pyTrunc (q : ℚ) : ℤ :=
  if 0 ≤ q then ⌊q⌋ else -⌊-q⌋

/-- Python float `%` (`a % b = a - b * floor(a / b)`, the sign following
`b`). -/
def pyMod (a b : ℚ) : ℚ :=
  a - b * ⌊a / b⌋

/-- The demo-mode branch of `predict`: a deterministic index from the
mean pixel value of the preprocessed tensor,
`int(min(len(classes) - 1, max(0, int(avg * len(classes)))))`, and the
pseudo-confidence `0.5 + (avg % 0.5)`.  An empty tensor makes `np.mean`
produce `nan` and `int(nan)` raise, and an empty vocabulary makes the
default argument `self.classes[0]` raise; both are reported as errors. -/
def demoPath (a : CropDiseaseModel) (x : Tensor) : Except Unit PredResult :=
  if tensorCount x = 0 ∨ a.classes = [] then .error ()
  else
    let avg := tensorMean x
    let n := a.classes.length
    let idx := (min ((n : ℤ) - 1) (max 0 (pyTrunc (avg * n)))).toNat
    let detailed := a.classes.getD idx (a.classes.headD "")
    .ok
      { plant := plantOf detailed
        disease := pvToSimple a.classes detailed
        confidence := 1 / 2 + pyMod avg (1 / 2)
        detailed_class := detailed
        model_used := "demo-mode" }

/-- The body of the `try` block of `predict`: preprocess, then the
trained-model branch if a model handle is present, the demo branch
otherwise.  A raising model call propagates into the handler. -/
def predictCore (E : ℚ → ℚ) (R : Resampler) (a : CropDiseaseModel)
    (image : PILImage) : Except Unit PredResult :=
  let x := preprocess R a.input_size image
  match a.model with
  | some m =>
    match m x with
    | .ok preds => modelPath E a preds
    | .error e => .error e
  | none => demoPath a x

/-- The fixed fallback result built by the exception handler of
`predict`: the first vocabulary label with confidence `0.0`. -/
def errorResult (a : CropDiseaseModel) : PredResult :=
  let fallback := a.classes.headD ""
  { plant := plantOf fallback
    disease := pvToSimple a.classes fallback
    confidence := 0
    detailed_class := fallback
    model_used := "error" }

/-- Model of `CropDiseaseModel.predict`: run the `try` body and convert
any exception into the safe fallback.  The handler itself evaluates
`self.classes[0]`, which raises out of `predict` when the vocabulary is
empty (the constructor guarantees it never is). -/
def predict (E : ℚ → ℚ) (R : Resampler) (a : CropDiseaseModel)
    (image : PILImage) : Except Unit PredResult :=
  match predictCore E R a image with
  | .ok r => .ok r
  | .error _ => if a.classes = [] then .error () else .ok (errorResult a)

/-! ### The `/analyze` HTTP handler (`app.py`) -/

/-- An inbound `/analyze` request after multipart parsing: whether the
`image` form field is present, its filename, and the decoded image
(`none` models bytes that `Image.open` rejects with an exception). -/
structure UploadReq where
  hasImageField : Bool
  filename : String
  decoded : Option PILImage

/-- The response of the handler: a 400 with a message, a 500 from the
outer exception handler, or the 200 JSON payload. -/
inductive AppResp where
  | clientError (msg : String)
  | serverError
  | success (plant disease : String) (confidence : ℚ) (detailed_class model_used : String)
      (advice : InfoEntry)

/-- Model of `file.filename.lower().endswith(('.jpg', '.jpeg', '.png'))`. -/
def extOk (filename : String) : Bool :=
  let l := (pyLowerStr filename).data
  ".jpg".data.isSuffixOf l || ".jpeg".data.isSuffixOf l || ".png".data.isSuffixOf l

/-- Model of the `/analyze` handler `analyze_image`: the validation
cascade, then prediction and advice lookup.  The second component
records whether `model.predict` was invoked for this request. -/
def analyze_image (E : ℚ → ℚ) (R : Resampler) (a : CropDiseaseModel)
    (req : UploadReq) : AppResp × Bool :=
  if ¬ req.hasImageField then (.clientError "No image uploaded", false)
  else if req.filename = "" then (.clientError "No file selected", false)
  else if ¬ extOk req.filename then (.clientError "Please upload JPG or PNG image", false)
  else
    match req.decoded with
    | none => (.serverError, false)
    | some image =>
      if image.width < 50 ∨ image.height < 50 then
        (.clientError "Image too small. Please upload a larger image.", false)
      else
        match predict E R a image with
        | .error _ => (.serverError, true)
        | .ok r =>
          (.success r.plant r.disease r.confidence r.detailed_class r.model_used
            (get_info_for_simple r.disease), true)

/-! ### Spec-side definitions for the refinement claims -/

/-- A valid RGB input image in the sense of the spec: RGB mode with both
pixel dimensions at least 50 (the 10 MiB bound on the encoded bytes lives
outside the decoded-image model). -/
def validRGBImage : PILImage → Prop
  | .rgb w h _ => 50 ≤ w ∧ 50 ≤ h
  | _ => False

/-- The probability vector exactly as the spec words it: softmax is
applied when the sum differs from 1 by more than `1e-3`. -/
def specProbsTol3 (E : ℚ → ℚ) (preds : List ℚ) : List ℚ :=
  if |listSum preds - 1| ≤ 1 / 1000 then preds else softmax E preds

/-- The probability vector with the tolerance the code actually applies:
`np.allclose(·, 1.0, atol=1e-3)` keeps its default `rtol = 1e-5`, so the
direct branch is taken iff the sum is within `1e-3 + 1e-5` of 1. -/
def specProbsAllclose (E : ℚ → ℚ) (preds : List ℚ) : List ℚ :=
  if |listSum preds - 1| ≤ 1 / 1000 + 1 / 100000 then preds else softmax E preds

/-! ### Concrete fixtures for witnesses and counterexamples -/

/-- A trivial stand-in for `np.exp` in concrete evaluations (the claims
hold for every positive exponential). -/
def wExp : ℚ → ℚ := fun _ => 1

/-- A resampler that ignores its input and paints a 76/77 checkerboard;
on a 2×2 target it yields a tensor of mean exactly 3/10. -/
def wMeanResampler : Resampler :=
  fun _ _ _ _ _ => fun x y => if (x + y) % 2 = 0 then (76, 76, 76) else (77, 77, 77)

/-- A resampler that paints everything black. -/
def zeroResampler : Resampler := fun _ _ _ _ _ => fun _ _ => (0, 0, 0)

/-- A black 50×50 RGB image (a valid upload). -/
def wImage : PILImage := .rgb 50 50 (fun _ _ => (0, 0, 0))

/-- Adapter in demo mode with the two-label vocabulary of the spec's
worked example and a 2×2 input size. -/
def wDemoAdapter : CropDiseaseModel :=
  mkAdapter ["Tomato___healthy", "Tomato___Early_blight"] (2, 2) none none

/-- Adapter whose loaded model returns `[2, -1]`: the output sums to 1,
so the direct branch is taken and the confidence is 2. -/
def cexModelAdapter : CropDiseaseModel :=
  mkAdapter [] (2, 2) (some (fun _ => .ok [2, -1])) none

/-- Adapter whose loaded model returns seven probabilities against the
six-label default vocabulary, with the arg-max at index 6. -/
def cexLongAdapter : CropDiseaseModel :=
  mkAdapter [] (2, 2) (some (fun _ => .ok [0, 0, 0, 0, 0, 0, 1])) none

/-- Adapter whose loaded model raises. -/
def wErrAdapter : CropDiseaseModel :=
  mkAdapter [] (2, 2) (some (fun _ => .error ())) none

/-- The output vector of the C5 counterexample: its sum differs from 1 by
`0.001005`, which is above the spec's `1e-3` but within the code's
`np.allclose` tolerance `1e-3 + 1e-5`. -/
def cexPreds : List ℚ := [1 + 1005 / 1000000]

/-- A 10×10 upload with a well-formed name, for the undersized-image
claim. -/
def wSmallReq : UploadReq :=
  { hasImageField := true, filename := "leaf.jpg", decoded := some (.rgb 10 10 (fun _ _ => (0, 0, 0))) }

/-! ### Shared helper lemmas -/

/-- The constructor never leaves the vocabulary empty. -/
theorem buildClasses_ne_nil (raw : List String) : buildClasses raw ≠ [] := by
  show (if (raw.map pyStripStr).filter (fun s => s ≠ "") = [] then defaultClasses
        else (raw.map pyStripStr).filter (fun s => s ≠ "")) ≠ []
  split
  · decide
  · assumption

/-- The default head of a non-empty list is a member. -/
theorem headD_mem {α : Type} {l : List α} (h : l ≠ []) (d : α) : l.headD d ∈ l := by
  cases l with
  | nil => exact absurd rfl h
  | cons x xs => exact List.mem_cons_self x xs

/-- On vocabulary members, the dictionary lookup yields the normalized
slug. -/
theorem pvToSimple_of_mem {classes : List String} {d : String} (h : d ∈ classes) :
    pvToSimple classes d = slugOf d := by
  simp [pvToSimple, h]

/-- `List.getD` at an in-range index does not depend on the default. -/
theorem getD_default_irrel {α : Type} {l : List α} {i : Nat} (h : i < l.length) (d₁ d₂ : α) :
    l.getD i d₁ = l.getD i d₂ := by
  simp [List.getD_eq_getElem?_getD, List.getElem?_eq_getElem h]

/-- `List.getD` at an in-range index is a member. -/
theorem getD_mem {α : Type} {l : List α} {i : Nat} (h : i < l.length) (d : α) :
    l.getD i d ∈ l := by
  rw [List.getD_eq_getElem?_getD, List.getElem?_eq_getElem h]
  exact List.getElem_mem h

/-! ### Claim C9: undersized uploads are rejected before prediction -/

/-- Claim C9: for every uploaded image that passes the field, filename
and extension checks, decodes, and has both pixel dimensions below 50,
the `/analyze` handler answers 400 with the "image too small" message and
`model.predict` is never invoked. -/
theorem claim_C9 (E : ℚ → ℚ) (R : Resampler) (a : CropDiseaseModel)
    (req : UploadReq) (img : PILImage)
    (hfield : req.hasImageField = true) (hname : req.filename ≠ "")
    (hext : extOk req.filename = true) (hdec : req.decoded = some img)
    (hw : img.width < 50) (_hh : img.height < 50) :
    analyze_image E R a req =
      (.clientError "Image too small. Please upload a larger image.", false) := by
  unfold analyze_image
  rw [hfield, hdec]
  simp [hname, hext, hw]

/-- Witness for C9: a decodable 10×10 `leaf.jpg` upload. -/
theorem claim_C9_witness :
    wSmallReq.hasImageField = true ∧ wSmallReq.filename ≠ "" ∧
    extOk wSmallReq.filename = true ∧
    analyze_image wExp zeroResampler wDemoAdapter wSmallReq =
      (.clientError "Image too small. Please upload a larger image.", false) :=
  ⟨rfl, by decide, by decide,
    claim_C9 wExp zeroResampler wDemoAdapter wSmallReq (.rgb 10 10 (fun _ _ => (0, 0, 0)))
      rfl (by decide) (by decide) rfl (by decide) (by decide)⟩

/-! ### Claim C2: exceptions become the fixed error fallback -/

/-- Claim C2: with a non-empty vocabulary (guaranteed by the
constructor), `predict` always returns a result, and whenever the `try`
body raises, the result is the fixed fallback: the first vocabulary
label, its normalized slug, confidence 0, `model_used = "error"`. -/
theorem claim_C2 (E : ℚ → ℚ) (R : Resampler) (a : CropDiseaseModel) (img : PILImage)
    (hc : a.classes ≠ []) :
    (∃ r, predict E R a img = .ok r) ∧
    (predictCore E R a img = .error () →
      predict E R a img = .ok
        { plant := plantOf (a.classes.headD "")
          disease := slugOf (a.classes.headD "")
          confidence := 0
          detailed_class := a.classes.headD ""
          model_used := "error" }) := by
  constructor
  · cases h : predictCore E R a img with
    | ok r => exact ⟨r, by simp [predict, h]⟩
    | error e => exact ⟨errorResult a, by simp [predict, h, hc]⟩
  · intro herr
    unfold predict
    rw [herr]
    dsimp only
    rw [if_neg hc]
    unfold errorResult
    dsimp only
    rw [pvToSimple_of_mem (headD_mem hc "")]

/-- Witness for C2: an adapter whose model call raises; the fallback
names the first default-vocabulary label. -/
theorem claim_C2_witness :
    wErrAdapter.classes ≠ [] ∧
    predictCore wExp zeroResampler wErrAdapter wImage = .error () ∧
    predict wExp zeroResampler wErrAdapter wImage = .ok
      { plant := "Tomato", disease := "tomato_late_blight", confidence := 0,
        detailed_class := "Tomato___Late_blight", model_used := "error" } := by
  refine ⟨by decide, by decide, ?_⟩
  have h := (claim_C2 wExp zeroResampler wErrAdapter wImage (by decide)).2 (by decide)
  exact h.trans (by decide)

/-! ### Claim C4: demo mode never raises -/

/-- Claim C4: for every input image, an adapter constructed without a
model handle (and with a positive target input size, as the 224×224
default is) returns successfully with `model_used = "demo-mode"`. -/
theorem claim_C4 (E : ℚ → ℚ) (R : Resampler) (raw : List String) (w h : Nat)
    (mp : Option String) (img : PILImage) (hw : 0 < w) (hh : 0 < h) :
    ∃ r, predict E R (mkAdapter raw (w, h) none mp) img = .ok r ∧
      r.model_used = "demo-mode" := by
  have hcls := buildClasses_ne_nil raw
  have hcount : tensorCount (preprocess R (w, h) img) ≠ 0 := by
    simp [tensorCount, preprocess]
    omega
  unfold predict predictCore mkAdapter demoPath
  simp only [hcount, hcls, or_self, if_false, false_or]
  exact ⟨_, rfl, rfl⟩

/-- Witness for C4: the demo adapter on the black 50×50 image. -/
theorem claim_C4_witness :
    (0 < 2 ∧ 0 < 2) ∧
    ∃ r, predict wExp zeroResampler
        (mkAdapter ["Tomato___healthy", "Tomato___Early_blight"] (2, 2) none none) wImage = .ok r ∧
      r.model_used = "demo-mode" :=
  ⟨⟨Nat.zero_lt_two, Nat.zero_lt_two⟩,
    claim_C4 wExp zeroResampler ["Tomato___healthy", "Tomato___Early_blight"] 2 2 none wImage
      Nat.zero_lt_two Nat.zero_lt_two⟩

/-! ### Claim C3: the demo-mode index selection -/

/-- Claim C3: with no model handle (and a non-degenerate tensor, so that
`np.mean` is defined), the demo branch selects the label whose index is
`floor(mean * num_classes)` clamped to `[0, num_classes - 1]`, reports the
normalized slug of that label, and sets `model_used = "demo-mode"`. -/
theorem claim_C3 (E : ℚ → ℚ) (R : Resampler) (a : CropDiseaseModel) (img : PILImage)
    (hm : a.model = none) (hc : a.classes ≠ [])
    (hcount : tensorCount (preprocess R a.input_size img) ≠ 0)
    (hnn : 0 ≤ tensorMean (preprocess R a.input_size img)) :
    ∃ r, predict E R a img = .ok r ∧
      r.detailed_class = a.classes.getD
        ((min ((a.classes.length : ℤ) - 1)
          (max 0 ⌊tensorMean (preprocess R a.input_size img) * (a.classes.length : ℚ)⌋)).toNat) "" ∧
      r.disease = slugOf r.detailed_class ∧
      r.model_used = "demo-mode" := by
  set x := preprocess R a.input_size img with hx
  set n := a.classes.length with hnl
  have hn : 0 < n := List.length_pos.mpr hc
  have hnn' : (0 : ℚ) ≤ tensorMean x * (n : ℚ) := mul_nonneg hnn (Nat.cast_nonneg n)
  have htr : pyTrunc (tensorMean x * (n : ℚ)) = ⌊tensorMean x * (n : ℚ)⌋ := by
    unfold pyTrunc
    rw [if_pos hnn']
  have hne : ¬ (tensorCount x = 0 ∨ a.classes = []) := by
    push_neg
    exact ⟨hcount, hc⟩
  set i0 := (min ((n : ℤ) - 1) (max 0 (pyTrunc (tensorMean x * (n : ℚ))))).toNat with hi0
  set d := a.classes.getD i0 (a.classes.headD "") with hd
  have hlt : i0 < n := by
    have h1 := min_le_left ((n : ℤ) - 1) (max 0 (pyTrunc (tensorMean x * (n : ℚ))))
    omega
  have hpred : predict E R a img = .ok
      { plant := plantOf d, disease := pvToSimple a.classes d
        confidence := 1 / 2 + pyMod (tensorMean x) (1 / 2), detailed_class := d
        model_used := "demo-mode" } := by
    unfold predict predictCore demoPath
    rw [hm]
    dsimp only
    rw [if_neg hne]
  refine ⟨_, hpred, ?_, ?_, rfl⟩
  · show d = a.classes.getD ((min ((n : ℤ) - 1) (max 0 ⌊tensorMean x * (n : ℚ)⌋)).toNat) ""
    rw [hd, hi0, htr]
    exact getD_default_irrel (htr ▸ hi0 ▸ hlt) _ _
  · exact (pvToSimple_of_mem (hd ▸ getD_mem hlt (a.classes.headD ""))).symm ▸ rfl

/-- Witness for C3: the spec's worked example.  With vocabulary
`["Tomato___healthy", "Tomato___Early_blight"]`, no model handle, and an
input whose preprocessed tensor has mean exactly 3/10, the result is
`Tomato___healthy` / `tomato_healthy` / `demo-mode`. -/
theorem claim_C3_witness :
    wDemoAdapter.model = none ∧
    tensorMean (preprocess wMeanResampler wDemoAdapter.input_size wImage) = 3 / 10 ∧
    ∃ r, predict wExp wMeanResampler wDemoAdapter wImage = .ok r ∧
      r.detailed_class = "Tomato___healthy" ∧ r.disease = "tomato_healthy" ∧
      r.model_used = "demo-mode" := by
  refine ⟨rfl, by decide, ?_⟩
  obtain ⟨r, hr, hdet, hdis, hmu⟩ :=
    claim_C3 wExp wMeanResampler wDemoAdapter wImage rfl (by decide) (by decide) (by decide)
  refine ⟨r, hr, hdet.trans (by decide), ?_, hmu⟩
  rw [hdis, hdet]
  decide

/-! ### Claim C8: unknown slugs hit the annotated fallback -/

/-- The empty pattern occurs in every string. -/
theorem containsPat_nil (l : List Char) : containsPat [] l = true := by
  cases l <;> simp [containsPat, List.isPrefixOf]

/-- A list is a Boolean prefix of itself followed by anything. -/
theorem isPrefixOf_self_append (l t : List Char) : l.isPrefixOf (l ++ t) = true := by
  induction l with
  | nil => simp [List.isPrefixOf]
  | cons c cs ih => simp [List.isPrefixOf, ih]

/-- A Boolean prefix is an occurrence. -/
theorem containsPat_of_isPrefixOf {pat l : List Char} (h : pat.isPrefixOf l = true) :
    containsPat pat l = true := by
  cases l with
  | nil => simpa [containsPat] using h
  | cons c rest => simp [containsPat, h]

/-- A pattern occurs in any string that embeds it between a prefix and a
suffix. -/
theorem containsPat_append_mid (pre pat suf : List Char) :
    containsPat pat (pre ++ (pat ++ suf)) = true := by
  induction pre with
  | nil => exact containsPat_of_isPrefixOf (isPrefixOf_self_append pat suf)
  | cons c cs ih => simp [containsPat, ih]

/-- Claim C8: a slug whose normalized form misses the table yields the
generic fallback whose `friendly_name` contains the original input, and a
known slug yields (a copy of) the table entry itself. -/
theorem claim_C8 (s : String) :
    (lookupDB (normalize_simple s) = none →
      get_info_for_simple s =
        { DEFAULT_ENTRY with
          friendly_name :=
            if s ≠ "" then "Unknown (" ++ s ++ ")" else DEFAULT_ENTRY.friendly_name } ∧
      containsStr (get_info_for_simple s).friendly_name s = true) ∧
    (∀ e, lookupDB (normalize_simple s) = some e → get_info_for_simple s = e) := by
  constructor
  · intro hnone
    have hfall : get_info_for_simple s =
        { DEFAULT_ENTRY with
          friendly_name :=
            if s ≠ "" then "Unknown (" ++ s ++ ")" else DEFAULT_ENTRY.friendly_name } := by
      simp only [get_info_for_simple, hnone]
    refine ⟨hfall, ?_⟩
    rw [hfall]
    by_cases hs : s = ""
    · subst hs
      decide
    · show containsStr (if s ≠ "" then "Unknown (" ++ s ++ ")" else DEFAULT_ENTRY.friendly_name) s = true
      rw [if_pos hs]
      unfold containsStr
      rw [String.data_append, String.data_append, List.append_assoc]
      exact containsPat_append_mid _ _ _
  · intro e he
    simp only [get_info_for_simple, he]

/-- Witness for C8: the unknown slug `martian_mold` gets the annotated
fallback; the known slug `Tomato___Healthy` gets its table entry. -/
theorem claim_C8_witness :
    (lookupDB (normalize_simple "martian_mold") = none ∧
      get_info_for_simple "martian_mold" =
        { DEFAULT_ENTRY with
          friendly_name :=
            if "martian_mold" ≠ "" then "Unknown (" ++ "martian_mold" ++ ")"
            else DEFAULT_ENTRY.friendly_name } ∧
      containsStr (get_info_for_simple "martian_mold").friendly_name "martian_mold" = true) ∧
    get_info_for_simple "Tomato___Healthy" =
      { friendly_name := "Tomato — Healthy"
        treatment := "No treatment required. Maintain good cultural practices and monitor for pests/diseases."
        prevention := "Maintain balanced fertilization, regular monitoring and sanitation to keep plants healthy."
        example_classes := some ["Tomato___Healthy"] } :=
  ⟨⟨by decide, (claim_C8 "martian_mold").1 (by decide)⟩,
    (claim_C8 "Tomato___Healthy").2 _ (by decide)⟩

/-! ### Claim C6: preprocess always yields a (1, H, W, 3) tensor in [0, 1] -/

/-- Conversion to RGB keeps channel values in the 8-bit range. -/
theorem convertRGB_bounded {img : PILImage} (hb : img.bounded) :
    ∀ x y, pixLe255 ((convertRGB img).2.2 x y) := by
  cases img with
  | l w h px => exact fun x y => ⟨hb x y, hb x y, hb x y⟩
  | rgb w h px => exact hb
  | rgba w h px => exact fun x y => (hb x y).1

/-- Every channel selected from an 8-bit pixel is at most 255. -/
theorem chan_le {p : Pix3} (hp : pixLe255 p) : ∀ c, chan p c ≤ 255 := by
  intro c
  match c with
  | 0 => exact hp.1
  | 1 => exact hp.2.1
  | 2 => exact hp.2.2
  | _ + 3 => exact Nat.zero_le 255 |>.trans (le_refl 255) |>.trans (by omega)

/-- Claim C6: for every input image of any mode and aspect ratio, the
preprocessed tensor has shape exactly `(1, H, W, 3)` for the adapter's
target input size `(W, H)`, and all its entries are scaled into `[0, 1]`
(given that resampling keeps pixels in the 8-bit range). -/
theorem claim_C6 (R : Resampler) (size : Nat × Nat) (img : PILImage)
    (hR : ResamplerWF R) (hb : img.bounded) :
    (preprocess R size img).shape = (1, size.2, size.1, 3) ∧
    ∀ b y x c, 0 ≤ (preprocess R size img).entry b y x c ∧
      (preprocess R size img).entry b y x c ≤ 1 := by
  constructor
  · rfl
  · intro b y x c
    have hpx :=
      hR (convertRGB img).1 (convertRGB img).2.1 (convertRGB img).2.2 size.1 size.2
        (convertRGB_bounded hb) x y
    have hch := chan_le hpx c
    constructor
    · show (0 : ℚ) ≤ (chan ((R (convertRGB img).1 (convertRGB img).2.1 (convertRGB img).2.2
        size.1 size.2) x y) c : ℚ) / 255
      positivity
    · show (chan ((R (convertRGB img).1 (convertRGB img).2.1 (convertRGB img).2.2
        size.1 size.2) x y) c : ℚ) / 255 ≤ 1
      rw [div_le_one (by norm_num)]
      exact_mod_cast hch

/-- Witness for C6: the black-painting resampler on the black 50×50 RGB
image at the default 224×224 input size. -/
theorem claim_C6_witness :
    (preprocess zeroResampler (224, 224) wImage).shape = (1, 224, 224, 3) ∧
    ∀ b y x c, 0 ≤ (preprocess zeroResampler (224, 224) wImage).entry b y x c ∧
      (preprocess zeroResampler (224, 224) wImage).entry b y x c ≤ 1 :=
  claim_C6 zeroResampler (224, 224) wImage
    (fun _ _ _ _ _ _ _ _ => by constructor <;> simp [zeroResampler])
    (fun _ _ => by constructor <;> simp)

/-! ### Claim C5: the logits-vs-probabilities decision -/

/-- Counterexample to C5 as stated: the output vector `[1 + 1005/10^6]`
has `|sum - 1| = 0.001005 > 1e-3`, so by the spec softmax should be
applied (yielding `[1]`), yet the code's `np.allclose` test (tolerance
`1e-3 + 1e-5`) keeps the vector unchanged. -/
theorem claim_C5_counterexample :
    modelProbs wExp cexPreds ≠ specProbsTol3 wExp cexPreds := by decide

/-- Claim C5, amended: softmax is applied exactly when the flattened
output fails `np.allclose(sum, 1.0, atol=1e-3)` — tolerance
`1e-3 + 1e-5 · |1.0|` with numpy's default `rtol`, not the bare `1e-3`
of the spec; the arg-max of the resulting vector is the label index and
the confidence is the probability at that index. -/
theorem claim_C5_amended (E : ℚ → ℚ) (a : CropDiseaseModel) (preds : List ℚ)
    (h : preds ≠ []) :
    modelProbs E preds = specProbsAllclose E preds ∧
    (modelPath E a preds).map PredResult.confidence =
      .ok ((specProbsAllclose E preds).getD (argmaxIdx (specProbsAllclose E preds)) 0) ∧
    (modelPath E a preds).map PredResult.detailed_class =
      .ok (a.classes.getD (argmaxIdx (specProbsAllclose E preds)) "Unknown") := by
  have hpp : modelProbs E preds = specProbsAllclose E preds := by
    unfold modelProbs specProbsAllclose sumCloseCode
    simp only [decide_eq_true_eq]
  refine ⟨hpp, ?_, ?_⟩
  · unfold modelPath
    rw [if_neg h]
    dsimp only [Except.map]
    rw [hpp]
  · unfold modelPath
    rw [if_neg h]
    dsimp only [Except.map]
    rw [hpp]

/-- Witness for the amended C5 at the output vector `[2, -1]` (which sums
to 1 and is used directly, arg-max index 0, confidence 2). -/
theorem claim_C5_witness :
    ([2, -1] : List ℚ) ≠ [] ∧
    (modelProbs wExp [2, -1] = specProbsAllclose wExp [2, -1] ∧
      (modelPath wExp wDemoAdapter [2, -1]).map PredResult.confidence =
        .ok ((specProbsAllclose wExp [2, -1]).getD (argmaxIdx (specProbsAllclose wExp [2, -1])) 0) ∧
      (modelPath wExp wDemoAdapter [2, -1]).map PredResult.detailed_class =
        .ok (wDemoAdapter.classes.getD (argmaxIdx (specProbsAllclose wExp [2, -1])) "Unknown")) :=
  ⟨by decide, claim_C5_amended wExp wDemoAdapter [2, -1] (by decide)⟩

/-! ### Claim C1: confidence range and slug membership -/

/-- Folding `max` over a list starting from a seed yields the seed or a
member. -/
theorem foldl_max_mem (rest : List ℚ) : ∀ c : ℚ, rest.foldl max c ∈ c :: rest := by
  induction rest with
  | nil => intro c; simp
  | cons d t ih =>
    intro c
    rw [List.foldl_cons]
    rcases List.mem_cons.mp (ih (max c d)) with h | h
    · rw [h]
      rcases max_choice c d with hm | hm <;> rw [hm]
      · exact List.mem_cons_self _ _
      · exact List.mem_cons.mpr (Or.inr (List.mem_cons_self _ _))
    · exact List.mem_cons.mpr (Or.inr (List.mem_cons.mpr (Or.inr h)))

/-- `np.max` of a non-empty vector is one of its entries. -/
theorem listMax_mem {l : List ℚ} (h : l ≠ []) : listMax l ∈ l := by
  cases l with
  | nil => exact absurd rfl h
  | cons c rest => exact foldl_max_mem rest c

/-- `np.argmax` of a non-empty vector is a valid index. -/
theorem argmaxIdx_lt_length {l : List ℚ} (h : l ≠ []) : argmaxIdx l < l.length :=
  List.findIdx_lt_length_of_exists ⟨listMax l, listMax_mem h, by simp⟩

/-- The softmax output has the input's length. -/
theorem softmax_length (E : ℚ → ℚ) (l : List ℚ) : (softmax E l).length = l.length := by
  simp [softmax]

/-- With a positive exponential, every softmax output lies in `[0, 1]`. -/
theorem softmax_bounds {E : ℚ → ℚ} (hE : ∀ x, 0 < E x) {l : List ℚ} (hne : l ≠ [])
    {p : ℚ} (hp : p ∈ softmax E l) : 0 ≤ p ∧ p ≤ 1 := by
  unfold softmax at hp
  obtain ⟨v, hv, rfl⟩ := List.mem_map.mp hp
  have hpos : ∀ u ∈ l.map (fun x => E (x - listMax l)), 0 < u := by
    intro u hu
    obtain ⟨w, _, rfl⟩ := List.mem_map.mp hu
    exact hE _
  have hS : 0 < listSum (l.map (fun x => E (x - listMax l))) :=
    List.sum_pos _ hpos (by simpa using hne)
  constructor
  · exact div_nonneg (hpos v hv).le hS.le
  · rw [div_le_one hS]
    exact List.single_le_sum (fun u hu => (hpos u hu).le) v hv

/-- The Python float `%` with a positive divisor lands in `[0, b)`. -/
theorem pyMod_bounds (q b : ℚ) (hb : 0 < b) : 0 ≤ pyMod q b ∧ pyMod q b < b := by
  unfold pyMod
  constructor
  · have h1 : (⌊q / b⌋ : ℚ) ≤ q / b := Int.floor_le _
    have h2 := mul_le_mul_of_nonneg_left h1 hb.le
    have h3 : b * (q / b) = q := by field_simp
    linarith
  · have h1 : q / b < ⌊q / b⌋ + 1 := Int.lt_floor_add_one _
    have h2 : q < (⌊q / b⌋ + 1) * b := (div_lt_iff₀ hb).mp h1
    nlinarith

/-- The error-fallback result satisfies the C1 conclusion. -/
theorem errorResult_ok {a : CropDiseaseModel} (hc : a.classes ≠ []) :
    0 ≤ (errorResult a).confidence ∧ (errorResult a).confidence ≤ 1 ∧
      (errorResult a).disease ∈ a.classes.map slugOf := by
  refine ⟨le_refl 0, by norm_num [errorResult], ?_⟩
  show pvToSimple a.classes (a.classes.headD "") ∈ a.classes.map slugOf
  rw [pvToSimple_of_mem (headD_mem hc "")]
  exact List.mem_map_of_mem _ (headD_mem hc "")

/-- Dissection of a successful demo-branch result. -/
theorem demoPath_ok {a : CropDiseaseModel} {x : Tensor} (hc : a.classes ≠ [])
    {r : PredResult} (h : demoPath a x = .ok r) :
    0 ≤ r.confidence ∧ r.confidence ≤ 1 ∧ r.detailed_class ∈ a.classes ∧
    r.disease = slugOf r.detailed_class ∧ r.model_used = "demo-mode" := by
  unfold demoPath at h
  by_cases hguard : tensorCount x = 0 ∨ a.classes = []
  · rw [if_pos hguard] at h
    cases h
  · rw [if_neg hguard] at h
    have hrec := (Except.ok.inj h).symm
    subst hrec
    have hn : 0 < a.classes.length := List.length_pos.mpr hc
    have hlt : (min ((a.classes.length : ℤ) - 1)
        (max 0 (pyTrunc (tensorMean x * (a.classes.length : ℚ))))).toNat < a.classes.length := by
      have h1 := min_le_left ((a.classes.length : ℤ) - 1)
        (max 0 (pyTrunc (tensorMean x * (a.classes.length : ℚ))))
      omega
    have hmem := getD_mem hlt (a.classes.headD "")
    have hmod := pyMod_bounds (tensorMean x) (1 / 2) (by norm_num)
    exact ⟨by linarith [hmod.1], by linarith [hmod.2], hmem, pvToSimple_of_mem hmem, rfl⟩

/-- Dissection of a successful trained-model-branch result. -/
theorem modelPath_fields {E : ℚ → ℚ} {a : CropDiseaseModel} {preds : List ℚ}
    {r : PredResult} (h : modelPath E a preds = .ok r) :
    preds ≠ [] ∧
    r.confidence = (modelProbs E preds).getD (argmaxIdx (modelProbs E preds)) 0 ∧
    r.detailed_class = a.classes.getD (argmaxIdx (modelProbs E preds)) "Unknown" ∧
    r.disease = pvToSimple a.classes r.detailed_class := by
  unfold modelPath at h
  by_cases hne : preds = []
  · rw [if_pos hne] at h
    cases h
  · rw [if_neg hne] at h
    have hrec := (Except.ok.inj h).symm
    subst hrec
    exact ⟨hne, rfl, rfl, rfl⟩

/-- Counterexample to C1 as stated: a loaded model returning `[2, -1]`
(a vector that sums to 1 and is therefore used directly) yields
confidence 2 on a valid 50×50 RGB upload. -/
theorem claim_C1_counterexample :
    validRGBImage wImage ∧
    (predict wExp zeroResampler cexModelAdapter wImage).map PredResult.confidence = .ok 2 ∧
    ¬ ((2 : ℚ) ≤ 1) :=
  ⟨⟨le_rfl, le_rfl⟩, by decide, by norm_num⟩

/-- Claim C1, amended: for every valid RGB input, the result of `predict`
has `0 ≤ confidence ≤ 1` and a `disease` slug drawn from the vocabulary,
provided that any successful model output fails the sum-≈-1 check (so
softmax is applied) and has exactly one entry per vocabulary label; the
demo-mode and error paths satisfy the property unconditionally.  (When
the raw output is used directly, the confidence can exceed 1, and an
output longer than the vocabulary can produce the out-of-vocabulary
disease `"unknown"`.) -/
theorem claim_C1_amended (E : ℚ → ℚ) (R : Resampler) (a : CropDiseaseModel) (img : PILImage)
    (hE : ∀ x, 0 < E x) (_hv : validRGBImage img) (hc : a.classes ≠ [])
    (hm : ∀ m preds, a.model = some m →
      m (preprocess R a.input_size img) = .ok preds →
      sumCloseCode preds = false ∧ preds.length = a.classes.length) :
    ∀ r, predict E R a img = .ok r →
      0 ≤ r.confidence ∧ r.confidence ≤ 1 ∧ r.disease ∈ a.classes.map slugOf := by
  intro r hr
  unfold predict at hr
  cases hcore : predictCore E R a img with
  | error e =>
    rw [hcore] at hr
    dsimp only at hr
    rw [if_neg hc] at hr
    have := Except.ok.inj hr
    subst this
    exact errorResult_ok hc
  | ok r0 =>
    rw [hcore] at hr
    dsimp only at hr
    have := Except.ok.inj hr
    subst this
    unfold predictCore at hcore
    cases hmod : a.model with
    | none =>
      rw [hmod] at hcore
      dsimp only at hcore
      obtain ⟨h1, h2, h3, h4, _⟩ := demoPath_ok hc hcore
      exact ⟨h1, h2, h4 ▸ List.mem_map_of_mem slugOf h3⟩
    | some m =>
      rw [hmod] at hcore
      dsimp only at hcore
      cases hout : m (preprocess R a.input_size img) with
      | error e2 =>
        rw [hout] at hcore
        cases hcore
      | ok preds =>
        rw [hout] at hcore
        dsimp only at hcore
        obtain ⟨hcl, hlen⟩ := hm m preds hmod hout
        obtain ⟨hne, hconf, hdet, hdis⟩ := modelPath_fields hcore
        have hprobs : modelProbs E preds = softmax E preds := by
          unfold modelProbs
          rw [hcl]
          rfl
        have hplen : (modelProbs E preds).length = preds.length := by
          rw [hprobs, softmax_length]
        have hpne : modelProbs E preds ≠ [] := by
          intro hnil
          rw [hnil] at hplen
          exact hne (List.length_eq_zero.mp hplen.symm)
        have hidx : argmaxIdx (modelProbs E preds) < (modelProbs E preds).length :=
          argmaxIdx_lt_length hpne
        have hconf_mem : (modelProbs E preds).getD (argmaxIdx (modelProbs E preds)) 0 ∈
            modelProbs E preds := getD_mem hidx 0
        have hbounds := softmax_bounds hE hne (hprobs ▸ hconf_mem)
        rw [← hprobs] at hbounds
        have hdetmem : r0.detailed_class ∈ a.classes := by
          rw [hdet]
          exact getD_mem (by omega) "Unknown"
        refine ⟨?_, ?_, ?_⟩
        · rw [hconf]
          exact hbounds.1
        · rw [hconf]
          exact hbounds.2
        · rw [hdis, pvToSimple_of_mem hdetmem]
          exact List.mem_map_of_mem slugOf hdetmem

/-- Witness for the amended C1: the demo adapter on the valid black
50×50 image. -/
theorem claim_C1_witness :
    validRGBImage wImage ∧ wDemoAdapter.classes ≠ [] ∧
    ∀ r, predict wExp zeroResampler wDemoAdapter wImage = .ok r →
      0 ≤ r.confidence ∧ r.confidence ≤ 1 ∧ r.disease ∈ wDemoAdapter.classes.map slugOf := by
  refine ⟨⟨le_rfl, le_rfl⟩, by decide, ?_⟩
  refine claim_C1_amended wExp zeroResampler wDemoAdapter wImage (fun _ => one_pos) ⟨le_rfl, le_rfl⟩
    (by decide) ?_
  intro m preds hcontra
  simp [wDemoAdapter, mkAdapter] at hcontra

/-! ### Claim C10: result invariants on every path -/

/-- Counterexample to C10 as stated: a model with seven outputs (arg-max
at index 6) against the six-label default vocabulary produces
`detailed_class = "Unknown"`, which is not a vocabulary member. -/
theorem claim_C10_counterexample :
    (predict wExp zeroResampler cexLongAdapter wImage).map PredResult.detailed_class =
      .ok "Unknown" ∧
    "Unknown" ∉ cexLongAdapter.classes :=
  ⟨by decide, by decide⟩

/-- Claim C10, amended: on every successful path (demo, trained-model and
error fallback alike) the result's `disease` is the normalized slug of
its `detailed_class`, and `detailed_class` is either a member of the
(non-empty) vocabulary or the literal out-of-range marker `"Unknown"`
(reachable only on the trained-model path when the arg-max index falls
outside the vocabulary). -/
theorem claim_C10_amended (E : ℚ → ℚ) (R : Resampler) (a : CropDiseaseModel) (img : PILImage)
    (hc : a.classes ≠ []) :
    ∀ r, predict E R a img = .ok r →
      r.disease = slugOf r.detailed_class ∧
      (r.detailed_class ∈ a.classes ∨ r.detailed_class = "Unknown") := by
  intro r hr
  unfold predict at hr
  cases hcore : predictCore E R a img with
  | error e =>
    rw [hcore] at hr
    dsimp only at hr
    rw [if_neg hc] at hr
    have := Except.ok.inj hr
    subst this
    exact ⟨pvToSimple_of_mem (headD_mem hc ""), Or.inl (headD_mem hc "")⟩
  | ok r0 =>
    rw [hcore] at hr
    dsimp only at hr
    have := Except.ok.inj hr
    subst this
    unfold predictCore at hcore
    cases hmod : a.model with
    | none =>
      rw [hmod] at hcore
      dsimp only at hcore
      obtain ⟨_, _, h3, h4, _⟩ := demoPath_ok hc hcore
      exact ⟨h4, Or.inl h3⟩
    | some m =>
      rw [hmod] at hcore
      dsimp only at hcore
      cases hout : m (preprocess R a.input_size img) with
      | error e2 =>
        rw [hout] at hcore
        cases hcore
      | ok preds =>
        rw [hout] at hcore
        dsimp only at hcore
        obtain ⟨hne, _, hdet, hdis⟩ := modelPath_fields hcore
        by_cases hidx : argmaxIdx (modelProbs E preds) < a.classes.length
        · have hmem : r0.detailed_class ∈ a.classes := by
            rw [hdet]
            exact getD_mem hidx "Unknown"
          exact ⟨hdis.trans (pvToSimple_of_mem hmem), Or.inl hmem⟩
        · have hunk : r0.detailed_class = "Unknown" := by
            rw [hdet, List.getD_eq_getElem?_getD, List.getElem?_eq_none (by omega)]
            rfl
          refine ⟨?_, Or.inr hunk⟩
          rw [hdis, hunk]
          by_cases hmem : "Unknown" ∈ a.classes
          · rw [pvToSimple_of_mem hmem]
          · unfold pvToSimple
            rw [if_neg hmem]
            decide

/-- Witness for the amended C10: the raising-model adapter (error path). -/
theorem claim_C10_witness :
    wErrAdapter.classes ≠ [] ∧
    ∀ r, predict wExp zeroResampler wErrAdapter wImage = .ok r →
      r.disease = slugOf r.detailed_class ∧
      (r.detailed_class ∈ wErrAdapter.classes ∨ r.detailed_class = "Unknown") :=
  ⟨by decide, claim_C10_amended wExp zeroResampler wErrAdapter wImage (by decide)⟩

/-! ### Claim C7: normalization is idempotent — groundwork -/

/-- Unfolding equation: replacing in the empty string. -/
theorem replFuel_nil (pat rep : List Char) (n : Nat) : replFuel pat rep n [] = [] := by
  cases n <;> rfl

/-- Unfolding equation: replacement with no fuel is the identity. -/
theorem replFuel_zero (pat rep : List Char) (l : List Char) : replFuel pat rep 0 l = l := by
  cases l <;> rfl

/-- Unfolding equation for a scanning step. -/
theorem replFuel_succ_cons (pat rep : List Char) (n : Nat) (c : Char) (rest : List Char) :
    replFuel pat rep (n + 1) (c :: rest) =
      if pat ≠ [] ∧ pat.isPrefixOf (c :: rest) then
        rep ++ replFuel pat rep n (List.drop pat.length (c :: rest))
      else
        c :: replFuel pat rep n rest := rfl

/-- Unfolding equation for the collapse loop. -/
theorem collapseFuel_succ (n : Nat) (l : List Char) :
    collapseFuel (n + 1) l =
      if containsPat ['_', '_'] l then collapseFuel n (pyReplace ['_', '_'] ['_'] l) else l := rfl

/-- Unfolding equation for the substring test. -/
theorem containsPat_cons (pat : List Char) (c : Char) (rest : List Char) :
    containsPat pat (c :: rest) = (pat.isPrefixOf (c :: rest) || containsPat pat rest) := rfl

/-- `Char.ofNat` inverts `toNat` below the surrogate range. -/
theorem toNat_charOfNat {n : Nat} (h : n < 55296) : (Char.ofNat n).toNat = n := by
  unfold Char.ofNat
  rw [dif_pos (Or.inl h)]
  rfl

/-- Lowering a character is idempotent. -/
theorem pyToLower_idem (c : Char) : pyToLower (pyToLower c) = pyToLower c := by
  unfold pyToLower
  by_cases h : 65 ≤ c.toNat ∧ c.toNat ≤ 90
  · rw [if_pos h]
    have hv : (Char.ofNat (c.toNat + 32)).toNat = c.toNat + 32 := toNat_charOfNat (by omega)
    rw [if_neg (by omega)]
  · rw [if_neg h, if_neg h]

/-- A Boolean prefix is no longer than the whole list. -/
theorem isPrefixOf_length_le : ∀ {pat l : List Char}, pat.isPrefixOf l = true →
    pat.length ≤ l.length := by
  intro pat
  induction pat with
  | nil => intro l _; simp
  | cons p ps ih =>
    intro l h
    cases l with
    | nil => simp [List.isPrefixOf] at h
    | cons x xs =>
      have h' : (p == x && ps.isPrefixOf xs) = true := h
      have h2 := (Bool.and_eq_true _ _).mp h'
      have := ih h2.2
      simp only [List.length_cons]
      omega

/-- Members of a Boolean prefix are members of the list. -/
theorem mem_of_isPrefixOf : ∀ {pat l : List Char}, pat.isPrefixOf l = true →
    ∀ {c}, c ∈ pat → c ∈ l := by
  intro pat
  induction pat with
  | nil => intro l _ c hc; cases hc
  | cons p ps ih =>
    intro l h c hc
    cases l with
    | nil => simp [List.isPrefixOf] at h
    | cons x xs =>
      have h' : (p == x && ps.isPrefixOf xs) = true := h
      have h2 := (Bool.and_eq_true _ _).mp h'
      have hpx : p = x := eq_of_beq h2.1
      rcases List.mem_cons.mp hc with rfl | hc
      · rw [hpx]; exact List.mem_cons_self x xs
      · exact List.mem_cons.mpr (Or.inr (ih h2.2 hc))

/-- Boolean prefixes compose transitively. -/
theorem isPrefixOf_trans : ∀ {p q r : List Char},
    p.isPrefixOf q = true → q.isPrefixOf r = true → p.isPrefixOf r = true := by
  intro p
  induction p with
  | nil => intro q r _ _; cases r <;> rfl
  | cons a as ih =>
    intro q r h1 h2
    cases q with
    | nil => simp [List.isPrefixOf] at h1
    | cons b bs =>
      cases r with
      | nil => simp [List.isPrefixOf] at h2
      | cons d ds =>
        have h1' := (Bool.and_eq_true _ _).mp (h1 : (a == b && as.isPrefixOf bs) = true)
        have h2' := (Bool.and_eq_true _ _).mp (h2 : (b == d && bs.isPrefixOf ds) = true)
        show (a == d && as.isPrefixOf ds) = true
        rw [Bool.and_eq_true]
        exact ⟨beq_iff_eq.mpr ((eq_of_beq h1'.1).trans (eq_of_beq h2'.1)), ih h1'.2 h2'.2⟩

/-- Characters of a replacement output come from the input or the
replacement string. -/
theorem mem_replFuel {pat rep : List Char} :
    ∀ {n l c}, c ∈ replFuel pat rep n l → c ∈ l ∨ c ∈ rep := by
  intro n
  induction n with
  | zero =>
    intro l c h
    rw [replFuel_zero] at h
    exact Or.inl h
  | succ n ih =>
    intro l c h
    cases l with
    | nil =>
      rw [replFuel_nil] at h
      cases h
    | cons d rest =>
      rw [replFuel_succ_cons] at h
      split at h
      · rcases List.mem_append.mp h with h | h
        · exact Or.inr h
        · rcases ih h with h | h
          · exact Or.inl (List.drop_subset _ _ h)
          · exact Or.inr h
      · rcases List.mem_cons.mp h with rfl | h
        · exact Or.inl (List.mem_cons_self _ _)
        · rcases ih h with h | h
          · exact Or.inl (List.mem_cons.mpr (Or.inr h))
          · exact Or.inr h

/-- Characters of `pyReplace` come from the input or the replacement. -/
theorem mem_pyReplace {pat rep l : List Char} {c : Char} (h : c ∈ pyReplace pat rep l) :
    c ∈ l ∨ c ∈ rep :=
  mem_replFuel h

/-- Characters of the collapse loop come from the input or are
underscores. -/
theorem mem_collapseFuel : ∀ {n l c}, c ∈ collapseFuel n l → c ∈ l ∨ c = '_' := by
  intro n
  induction n with
  | zero => intro l c h; exact Or.inl h
  | succ n ih =>
    intro l c h
    rw [collapseFuel_succ] at h
    split at h
    · rcases ih h with h | h
      · rcases mem_pyReplace h with h | h
        · exact Or.inl h
        · exact Or.inr (List.mem_singleton.mp h)
      · exact Or.inr h
    · exact Or.inl h

/-- Characters survive stripping only if present before. -/
theorem mem_pyStrip {l : List Char} {c : Char} (h : c ∈ pyStrip l) : c ∈ l := by
  unfold pyStrip at h
  rw [List.mem_reverse] at h
  have h1 := (List.dropWhile_sublist pyIsSpace).subset h
  rw [List.mem_reverse] at h1
  exact (List.dropWhile_sublist pyIsSpace).subset h1

/-- Replacement is the identity when the pattern never occurs. -/
theorem replFuel_eq_of_not_contains {pat rep : List Char} :
    ∀ {n l}, containsPat pat l = false → replFuel pat rep n l = l := by
  intro n
  induction n with
  | zero => intro l _; exact replFuel_zero pat rep l
  | succ n ih =>
    intro l h
    cases l with
    | nil => exact replFuel_nil pat rep _
    | cons d rest =>
      rw [containsPat_cons, Bool.or_eq_false_iff] at h
      rw [replFuel_succ_cons, if_neg (by simp [h.1]), ih h.2]

/-- `pyReplace` is the identity when the pattern never occurs. -/
theorem pyReplace_eq_of_not_contains {pat rep l : List Char}
    (h : containsPat pat l = false) : pyReplace pat rep l = l :=
  replFuel_eq_of_not_contains h

/-- The collapse loop is the identity when no double underscore occurs. -/
theorem collapseFuel_eq_of_not_contains {l : List Char} (n : Nat)
    (h : containsPat ['_', '_'] l = false) : collapseFuel n l = l := by
  cases n with
  | zero => rfl
  | succ n => rw [collapseFuel_succ, if_neg (by simp [h])]

/-- Occurrence of a pattern implies occurrence of any Boolean prefix of
that pattern. -/
theorem containsPat_mono {pat' pat : List Char} (hpp : pat'.isPrefixOf pat = true) :
    ∀ {l}, containsPat pat l = true → containsPat pat' l = true := by
  intro l
  induction l with
  | nil =>
    intro h
    exact containsPat_of_isPrefixOf (isPrefixOf_trans hpp h)
  | cons c rest ih =>
    intro h
    rw [containsPat_cons, Bool.or_eq_true] at h
    rcases h with h | h
    · exact containsPat_of_isPrefixOf (isPrefixOf_trans hpp h)
    · rw [containsPat_cons, Bool.or_eq_true]
      exact Or.inr (ih h)

/-- Every character of an occurring pattern is a character of the
string. -/
theorem mem_of_containsPat : ∀ {pat l : List Char}, containsPat pat l = true →
    ∀ {c}, c ∈ pat → c ∈ l := by
  intro pat l
  induction l with
  | nil =>
    intro h c hc
    exact mem_of_isPrefixOf h hc
  | cons d rest ih =>
    intro h c hc
    rw [containsPat_cons, Bool.or_eq_true] at h
    rcases h with h | h
    · exact mem_of_isPrefixOf h hc
    · exact List.mem_cons.mpr (Or.inr (ih h hc))

/-- A single-character pattern is eradicated by replacement (when the
replacement avoids it).  The fuel must cover the input. -/
theorem not_mem_replFuel_single {c0 : Char} {rep : List Char} (hrep : c0 ∉ rep) :
    ∀ {n l}, l.length ≤ n → c0 ∉ replFuel [c0] rep n l := by
  intro n
  induction n with
  | zero =>
    intro l hl
    have : l = [] := List.length_eq_zero.mp (Nat.le_zero.mp hl)
    subst this
    rw [replFuel_nil]
    exact List.not_mem_nil c0
  | succ n ih =>
    intro l hl
    cases l with
    | nil =>
      rw [replFuel_nil]
      exact List.not_mem_nil c0
    | cons d rest =>
      rw [replFuel_succ_cons]
      by_cases hpre : ([c0] : List Char).isPrefixOf (d :: rest) = true
      · rw [if_pos ⟨by simp, hpre⟩]
        intro hmem
        rcases List.mem_append.mp hmem with h | h
        · exact hrep h
        · have hdrop : List.drop ([c0] : List Char).length (d :: rest) = rest := by simp
          rw [hdrop] at h
          exact ih (by simp at hl; omega) h
      · rw [if_neg (by simp [hpre])]
        intro hmem
        rcases List.mem_cons.mp hmem with rfl | h
        · have : (([c0] : List Char).isPrefixOf (c0 :: rest)) = true := by
            show (c0 == c0 && List.isPrefixOf [] rest) = true
            simp [List.isPrefixOf]
          exact hpre this
        · exact ih (by simp at hl; omega) h

/-- Replacement by a no-longer string does not grow the input (fuelled
version). -/
theorem replFuel_length_le {pat rep : List Char} (hrep : rep.length ≤ pat.length) :
    ∀ {n l}, l.length ≤ n → (replFuel pat rep n l).length ≤ l.length := by
  intro n
  induction n with
  | zero =>
    intro l hl
    rw [replFuel_zero]
  | succ n ih =>
    intro l hl
    cases l with
    | nil =>
      rw [replFuel_nil]
    | cons c rest =>
      rw [replFuel_succ_cons]
      split
      · rename_i hcond
        have hplen : pat.length ≤ rest.length + 1 := by
          simpa using isPrefixOf_length_le hcond.2
        have hppos : 1 ≤ pat.length := by
          have := hcond.1
          cases hp : pat with
          | nil => exact absurd hp this
          | cons _ _ => simp
        have hrec := ih (l := List.drop pat.length (c :: rest))
          (by simp only [List.length_drop, List.length_cons]; simp at hl; omega)
        simp only [List.length_append, List.length_drop, List.length_cons] at hrec ⊢
        omega
      · have hrec := ih (l := rest) (by simp at hl; omega)
        simp only [List.length_cons]
        omega

/-- Replacement by a strictly shorter string strictly shrinks any input
in which the pattern occurs (fuelled version). -/
theorem replFuel_length_lt {pat rep : List Char} (hrep : rep.length < pat.length) :
    ∀ {n l}, l.length ≤ n → containsPat pat l = true →
      (replFuel pat rep n l).length < l.length := by
  intro n
  induction n with
  | zero =>
    intro l hl hcont
    have : l = [] := List.length_eq_zero.mp (Nat.le_zero.mp hl)
    subst this
    have hpne : pat ≠ [] := by
      intro h
      subst h
      simp at hrep
    cases hp : pat with
    | nil => exact absurd hp hpne
    | cons p ps =>
      rw [hp] at hcont
      simp [containsPat, List.isPrefixOf] at hcont
  | succ n ih =>
    intro l hl hcont
    cases l with
    | nil =>
      have hpne : pat ≠ [] := by
        intro h
        subst h
        simp at hrep
      cases hp : pat with
      | nil => exact absurd hp hpne
      | cons p ps =>
        rw [hp] at hcont
        simp [containsPat, List.isPrefixOf] at hcont
    | cons c rest =>
      have hpne : pat ≠ [] := by
        intro h
        subst h
        simp at hrep
      rw [containsPat_cons, Bool.or_eq_true] at hcont
      rw [replFuel_succ_cons]
      by_cases hpre : pat.isPrefixOf (c :: rest) = true
      · rw [if_pos ⟨hpne, hpre⟩]
        have hplen : pat.length ≤ rest.length + 1 := by
          simpa using isPrefixOf_length_le hpre
        have hrec := replFuel_length_le (le_of_lt hrep) (n := n)
          (l := List.drop pat.length (c :: rest))
          (by simp only [List.length_drop, List.length_cons]; simp at hl; omega)
        simp only [List.length_append, List.length_drop, List.length_cons] at hrec ⊢
        omega
      · rw [if_neg (by simp [hpre])]
        have hcont' : containsPat pat rest = true := by
          rcases hcont with h | h
          · exact absurd h hpre
          · exact h
        have hrec := ih (l := rest) (by simp at hl; omega) hcont'
        simp only [List.length_cons]
        omega

/-- After the fuelled collapse loop no double underscore remains
(fuel covering the input always reaches the fixed point). -/
theorem collapseFuel_no_dunder : ∀ {n l}, l.length ≤ n →
    containsPat ['_', '_'] (collapseFuel n l) = false := by
  intro n
  induction n with
  | zero =>
    intro l hl
    have : l = [] := List.length_eq_zero.mp (Nat.le_zero.mp hl)
    subst this
    rfl
  | succ n ih =>
    intro l hl
    rw [collapseFuel_succ]
    by_cases hcont : containsPat ['_', '_'] l = true
    · rw [if_pos hcont]
      have hlt : (pyReplace ['_', '_'] ['_'] l).length < l.length :=
        replFuel_length_lt (by simp) (le_refl l.length) hcont
      exact ih (by omega)
    · rw [if_neg (by simp [Bool.not_eq_true] at hcont; simp [hcont])]
      simpa using hcont

/-- A replacement by a non-empty string of a non-empty input is
non-empty (with covering fuel). -/
theorem replFuel_ne_nil {pat rep : List Char} (hrepne : rep ≠ []) :
    ∀ {n l}, l.length ≤ n → l ≠ [] → replFuel pat rep n l ≠ [] := by
  intro n l hl hne
  cases l with
  | nil => exact absurd rfl hne
  | cons d rest =>
    cases n with
    | zero => simp at hl
    | succ n =>
      rw [replFuel_succ_cons]
      split
      · simp [hrepne]
      · simp

/-- The last element of a non-empty suffix is the last element of the
whole list. -/
theorem getLast?_of_suffix {α : Type} {u v : List α} (h : u <:+ v) (hu : u ≠ []) :
    u.getLast? = v.getLast? := by
  obtain ⟨w, rfl⟩ := h
  rw [List.getLast?_append]
  obtain ⟨x, hx⟩ := Option.isSome_iff_exists.mp (List.getLast?_isSome.mpr hu)
  rw [hx]
  rfl

/-- Dropping a prefix preserves the last element when anything is left. -/
theorem getLast?_drop_eq {α : Type} {k : Nat} {l : List α} (h : List.drop k l ≠ []) :
    (List.drop k l).getLast? = l.getLast? :=
  getLast?_of_suffix (List.drop_suffix k l) h

/-- Popping the head off preserves the last element of a list with a
non-empty tail. -/
theorem getLast?_cons_of_ne_nil {α : Type} {d : α} {X : List α} (h : X ≠ []) :
    (d :: X).getLast? = X.getLast? := by
  obtain ⟨x, xs, rfl⟩ := List.exists_cons_of_ne_nil h
  rw [List.getLast?_cons_cons]

/-- The head of a replacement output (replacement string `"_"`) is an
underscore or the input's head. -/
theorem replFuel_head {pat : List Char} :
    ∀ {n l c}, (replFuel pat ['_'] n l).head? = some c → c = '_' ∨ l.head? = some c := by
  intro n l c h
  cases n with
  | zero =>
    rw [replFuel_zero] at h
    exact Or.inr h
  | succ n =>
    cases l with
    | nil =>
      rw [replFuel_nil] at h
      cases h
    | cons d rest =>
      rw [replFuel_succ_cons] at h
      split at h
      · exact Or.inl (Option.some.inj h).symm
      · have hd : d = c := Option.some.inj h
        exact Or.inr (by rw [List.head?_cons, hd])

/-- The last character of a replacement output (replacement string
`"_"`) is an underscore or the input's last character. -/
theorem replFuel_getLast {pat : List Char} :
    ∀ {n l c}, l.length ≤ n → (replFuel pat ['_'] n l).getLast? = some c →
      c = '_' ∨ l.getLast? = some c := by
  intro n
  induction n with
  | zero =>
    intro l c hl h
    rw [List.length_eq_zero.mp (Nat.le_zero.mp hl), replFuel_nil] at h
    cases h
  | succ n ih =>
    intro l c hl h
    cases l with
    | nil =>
      rw [replFuel_nil] at h
      cases h
    | cons d rest =>
      rw [replFuel_succ_cons] at h
      split at h
      · rename_i hcond
        by_cases hrec : replFuel pat ['_'] n (List.drop pat.length (d :: rest)) = []
        · rw [hrec] at h
          simp at h
          exact Or.inl h.symm
        · rw [List.getLast?_append] at h
          obtain ⟨x, hx⟩ := Option.isSome_iff_exists.mp (List.getLast?_isSome.mpr hrec)
          rw [hx] at h
          have hxc : x = c := by simpa using h
          subst hxc
          have hplen1 : 1 ≤ pat.length := by
            cases hp : pat with
            | nil => exact absurd hp hcond.1
            | cons _ _ => simp
          have hfuel : (List.drop pat.length (d :: rest)).length ≤ n := by
            simp only [List.length_drop, List.length_cons]
            simp at hl
            omega
          rcases ih hfuel hx with h' | h'
          · exact Or.inl h'
          · right
            have hdropne : List.drop pat.length (d :: rest) ≠ [] := by
              intro hn
              rw [hn] at h'
              cases h'
            rw [← getLast?_drop_eq hdropne]
            exact h'
      · by_cases hrec : replFuel pat ['_'] n rest = []
        · rw [hrec] at h
          simp at h
          have hrest : rest = [] := by
            by_contra hne
            exact (replFuel_ne_nil (by simp) (by simp at hl; omega) hne) hrec
          subst hrest
          right
          simp [h]
        · rw [getLast?_cons_of_ne_nil hrec] at h
          have hrestne : rest ≠ [] := by
            intro hn
            rw [hn, replFuel_nil] at hrec
            exact hrec rfl
          rcases ih (by simp at hl; omega) h with h' | h'
          · exact Or.inl h'
          · right
            rw [getLast?_cons_of_ne_nil hrestne]
            exact h'

/-- The head after the collapse loop is an underscore or the input's
head. -/
theorem collapseFuel_head : ∀ {n l c}, (collapseFuel n l).head? = some c →
    c = '_' ∨ l.head? = some c := by
  intro n
  induction n with
  | zero => exact fun h => Or.inr h
  | succ n ih =>
    intro l c h
    rw [collapseFuel_succ] at h
    split at h
    · rcases ih h with h' | h'
      · exact Or.inl h'
      · exact replFuel_head h'
    · exact Or.inr h

/-- The last character after the collapse loop is an underscore or the
input's last character. -/
theorem collapseFuel_getLast : ∀ {n l c}, (collapseFuel n l).getLast? = some c →
    c = '_' ∨ l.getLast? = some c := by
  intro n
  induction n with
  | zero => exact fun h => Or.inr h
  | succ n ih =>
    intro l c h
    rw [collapseFuel_succ] at h
    split at h
    · rcases ih h with h' | h'
      · exact Or.inl h'
      · exact replFuel_getLast (le_refl _) h'
    · exact Or.inr h

/-- The head surviving `dropWhile` does not satisfy the predicate. -/
theorem head?_dropWhile_not {p : Char → Bool} :
    ∀ {l : List Char} {c : Char}, (l.dropWhile p).head? = some c → p c = false := by
  intro l
  induction l with
  | nil => intro c h; cases h
  | cons d rest ih =>
    intro c h
    rw [List.dropWhile_cons] at h
    split at h
    · exact ih h
    · rename_i hpd
      have hd : d = c := Option.some.inj h
      subst hd
      exact Bool.eq_false_iff.mpr hpd

/-- `dropWhile` is the identity when the head does not satisfy the
predicate. -/
theorem dropWhile_eq_self_of_head {p : Char → Bool} {l : List Char}
    (h : ∀ c, l.head? = some c → p c = false) : l.dropWhile p = l := by
  cases l with
  | nil => rfl
  | cons d rest =>
    rw [List.dropWhile_cons, if_neg]
    simp [h d rfl]

/-- The head of a stripped string is not whitespace. -/
theorem pyStrip_head {l : List Char} {c : Char} (h : (pyStrip l).head? = some c) :
    pyIsSpace c = false := by
  unfold pyStrip at h
  rw [List.head?_reverse] at h
  have hune : List.dropWhile pyIsSpace ((List.dropWhile pyIsSpace l).reverse) ≠ [] := by
    intro hn
    rw [hn] at h
    cases h
  rw [getLast?_of_suffix (List.dropWhile_suffix _) hune, List.getLast?_reverse] at h
  exact head?_dropWhile_not h

/-- The last character of a stripped string is not whitespace. -/
theorem pyStrip_last {l : List Char} {c : Char} (h : (pyStrip l).getLast? = some c) :
    pyIsSpace c = false := by
  unfold pyStrip at h
  rw [List.getLast?_reverse] at h
  exact head?_dropWhile_not h

/-- Stripping a string with non-whitespace ends is the identity. -/
theorem pyStrip_eq_self {l : List Char}
    (hh : ∀ c, l.head? = some c → pyIsSpace c = false)
    (hl : ∀ c, l.getLast? = some c → pyIsSpace c = false) : pyStrip l = l := by
  unfold pyStrip
  rw [dropWhile_eq_self_of_head hh]
  rw [dropWhile_eq_self_of_head (fun c hc => hl c (by rwa [List.head?_reverse] at hc))]
  rw [List.reverse_reverse]

/-- Mapping a function that fixes every member is the identity. -/
theorem map_eq_self_of_fixed {f : Char → Char} :
    ∀ {l : List Char}, (∀ c ∈ l, f c = c) → l.map f = l := by
  intro l
  induction l with
  | nil => intro _; rfl
  | cons c rest ih =>
    intro h
    rw [List.map_cons, h c (List.mem_cons_self c rest),
      ih (fun d hd => h d (List.mem_cons.mpr (Or.inr hd)))]

/-- Characters after the collapse loop come from the input or are
underscores. -/
theorem mem_collapseDunder {l : List Char} {c : Char} (h : c ∈ collapseDunder l) :
    c ∈ l ∨ c = '_' :=
  mem_collapseFuel h

/-- The collapse loop leaves no double underscore. -/
theorem collapseDunder_no_dunder (l : List Char) :
    containsPat ['_', '_'] (collapseDunder l) = false :=
  collapseFuel_no_dunder (le_refl _)

/-- The head after the collapse loop. -/
theorem collapseDunder_head {l : List Char} {c : Char}
    (h : (collapseDunder l).head? = some c) : c = '_' ∨ l.head? = some c :=
  collapseFuel_head h

/-- The last character after the collapse loop. -/
theorem collapseDunder_getLast {l : List Char} {c : Char}
    (h : (collapseDunder l).getLast? = some c) : c = '_' ∨ l.getLast? = some c :=
  collapseFuel_getLast h

/-- The collapse loop is the identity without a double underscore. -/
theorem collapseDunder_eq_of_not_contains {l : List Char}
    (h : containsPat ['_', '_'] l = false) : collapseDunder l = l :=
  collapseFuel_eq_of_not_contains _ h

/-- The head of a `pyReplace` by `"_"`. -/
theorem pyReplace_head {pat l : List Char} {c : Char}
    (h : (pyReplace pat ['_'] l).head? = some c) : c = '_' ∨ l.head? = some c :=
  replFuel_head h

/-- The last character of a `pyReplace` by `"_"`. -/
theorem pyReplace_getLast {pat l : List Char} {c : Char}
    (h : (pyReplace pat ['_'] l).getLast? = some c) : c = '_' ∨ l.getLast? = some c :=
  replFuel_getLast (le_refl _) h

/-- Replacing a single character eradicates it (when the replacement
avoids it). -/
theorem not_mem_pyReplace_single {c0 : Char} {rep : List Char} (hrep : c0 ∉ rep)
    (l : List Char) : c0 ∉ pyReplace [c0] rep l :=
  not_mem_replFuel_single hrep (le_refl _)

/-- Idempotence of `_normalize_simple` on character lists. -/
theorem normalizeSimpleL_idem (l : List Char) :
    normalizeSimpleL (normalizeSimpleL l) = normalizeSimpleL l := by
  by_cases hl : l = []
  · subst hl
    rfl
  · have hform : normalizeSimpleL l =
        collapseDunder (pyReplace [' '] ['_'] (pyReplace [' ', '-', ' '] ['_']
          (pyReplace ['_', '_'] ['_'] (pyReplace ['_', '_', '_'] ['_']
            (pyStrip (l.map pyToLower)))))) := by
      unfold normalizeSimpleL
      rw [if_neg hl]
    set s4 := pyReplace [' '] ['_'] (pyReplace [' ', '-', ' '] ['_']
      (pyReplace ['_', '_'] ['_'] (pyReplace ['_', '_', '_'] ['_']
        (pyStrip (l.map pyToLower))))) with hs4
    set y := collapseDunder s4 with hy
    rw [hform]
    by_cases hye : y = []
    · rw [hye]
      rfl
    · have hlow : ∀ c ∈ y, pyToLower c = c := by
        intro c hc
        rw [hy] at hc
        rcases mem_collapseDunder hc with hc | rfl
        · rw [hs4] at hc
          rcases mem_pyReplace hc with hc | hc
          on_goal 2 => exact (by rw [List.mem_singleton.mp hc]; decide)
          rcases mem_pyReplace hc with hc | hc
          on_goal 2 => exact (by rw [List.mem_singleton.mp hc]; decide)
          rcases mem_pyReplace hc with hc | hc
          on_goal 2 => exact (by rw [List.mem_singleton.mp hc]; decide)
          rcases mem_pyReplace hc with hc | hc
          on_goal 2 => exact (by rw [List.mem_singleton.mp hc]; decide)
          obtain ⟨d, _, rfl⟩ := List.mem_map.mp (mem_pyStrip hc)
          exact pyToLower_idem d
        · decide
      have hnospace : ' ' ∉ y := by
        intro hsp
        rw [hy] at hsp
        rcases mem_collapseDunder hsp with hsp | heq
        · rw [hs4] at hsp
          exact not_mem_pyReplace_single (by decide) _ hsp
        · exact absurd heq (by decide)
      have hnod : containsPat ['_', '_'] y = false := by
        rw [hy]
        exact collapseDunder_no_dunder s4
      have hhead : ∀ c, y.head? = some c → pyIsSpace c = false := by
        intro c hc
        rw [hy] at hc
        rcases collapseDunder_head hc with rfl | hc
        · decide
        · rw [hs4] at hc
          rcases pyReplace_head hc with rfl | hc
          · decide
          rcases pyReplace_head hc with rfl | hc
          · decide
          rcases pyReplace_head hc with rfl | hc
          · decide
          rcases pyReplace_head hc with rfl | hc
          · decide
          exact pyStrip_head hc
      have hlast : ∀ c, y.getLast? = some c → pyIsSpace c = false := by
        intro c hc
        rw [hy] at hc
        rcases collapseDunder_getLast hc with rfl | hc
        · decide
        · rw [hs4] at hc
          rcases pyReplace_getLast hc with rfl | hc
          · decide
          rcases pyReplace_getLast hc with rfl | hc
          · decide
          rcases pyReplace_getLast hc with rfl | hc
          · decide
          rcases pyReplace_getLast hc with rfl | hc
          · decide
          exact pyStrip_last hc
      have hnod3 : containsPat ['_', '_', '_'] y = false := by
        cases h3 : containsPat ['_', '_', '_'] y
        · rfl
        · have h2 := @containsPat_mono ['_', '_'] ['_', '_', '_'] (by decide) y h3
          rw [hnod] at h2
          exact h2.symm
      have hnodash : containsPat [' ', '-', ' '] y = false := by
        cases h3 : containsPat [' ', '-', ' '] y
        · rfl
        · exact absurd (mem_of_containsPat h3 (by decide)) hnospace
      have hnosp : containsPat [' '] y = false := by
        cases h3 : containsPat [' '] y
        · rfl
        · exact absurd (mem_of_containsPat h3 (by decide)) hnospace
      unfold normalizeSimpleL
      rw [if_neg hye]
      rw [map_eq_self_of_fixed hlow]
      rw [pyStrip_eq_self hhead hlast]
      rw [pyReplace_eq_of_not_contains hnod3]
      rw [pyReplace_eq_of_not_contains hnod]
      rw [pyReplace_eq_of_not_contains hnodash]
      rw [pyReplace_eq_of_not_contains hnosp]
      exact collapseDunder_eq_of_not_contains hnod

/-- Claim C7: the slug normalization used by the disease-info lookup is
idempotent: `normalize(normalize(x)) = normalize(x)` for every string. -/
theorem claim_C7 (s : String) :
    normalize_simple (normalize_simple s) = normalize_simple s := by
  unfold normalize_simple
  exact congrArg String.mk (normalizeSimpleL_idem s.data)
